import Mathlib

/-!
Verification of the core state engine of the penrose tiling window manager
(v3 module). Shallow embedding conventions:

* Rust `usize` is modelled as `Nat`. Subtractions that can underflow in the
  source are modelled with release-build wrap-around semantics, written
  explicitly as `(a + 2 ^ 64 - b) % 2 ^ 64` (`usub`); debug builds of the
  source panic at these points instead.
* Operations that panic in every build mode (out-of-bounds
  `VecDeque::insert`, out-of-bounds indexing, explicit `panic!`) return
  `Option`, with `none` standing for the panic.
* `VecDeque<T>` is modelled as `List T`; `make_contiguous` is a no-op at
  this level of abstraction.
* Xid (`u32` window ids) are modelled as `Nat`.
-/

namespace Penrose

/-- Wrap-around width of `usize` on a 64-bit target. -/
def U64 : Nat := 2 ^ 64

/-- Release-mode `usize` subtraction: `a - b` wrapping modulo `2 ^ 64`.
Used exactly where the source subtracts without an underflow guard. -/
def usub (a b : Nat) : Nat := (a + U64 - b) % U64

/-- Direction to rotate or cycle a collection (ring.rs). -/
inductive Direction where
  | Forward
  | Backward
deriving DecidableEq, Repr

/-- Where an element should be inserted into a Ring (ring.rs). -/
inductive InsertPoint where
  | Index (i : Nat)
  | Focused
  | AfterFocused
  | First
  | Last
deriving DecidableEq, Repr

/-- Error taxonomy (error.rs); only the variants the verified operations
can produce are modelled. -/
inductive Error where
  | NoMatchingElement
  | Raw (s : String)
deriving DecidableEq, Repr

/-- Focusable ordered collection (ring.rs `Ring<T>`): a sequence plus a
distinguished `focused` index. -/
structure Ring (T : Type) where
  inner : List T
  focused : Nat
deriving DecidableEq, Repr

/-- `VecDeque::insert(i, t)`: inserts at index `i`, shifting later
elements; panics (`none`) when `i > len`. -/
def vecInsert {T : Type} : List T → Nat → T → Option (List T)
  | l, 0, t => some (t :: l)
  | [], _ + 1, _ => none
  | x :: xs, i + 1, t => (vecInsert xs i t).map (x :: ·)

namespace Ring

/-- `Ring::from(Vec<T>)`: focused starts at 0. -/
def fromList {T : Type} (l : List T) : Ring T := ⟨l, 0⟩

/-- `Ring::len`. -/
def len {T : Type} (r : Ring T) : Nat := r.inner.length

/-- `Ring::focused_index`: `none` on an empty ring. -/
def focused_index {T : Type} (r : Ring T) : Option Nat :=
  if r.inner.isEmpty then none else some r.focused

/-- `Ring::focused_element`: checked access at the focused index. -/
def focused_element {T : Type} (r : Ring T) : Option T :=
  r.inner[r.focused]?

/-- `Ring::insert`: place `t` according to the insert point. `Index i`
and `Focused` go through `VecDeque::insert`, which panics (`none`) when
the index exceeds the current length. -/
def insert {T : Type} (r : Ring T) (t : T) (ip : InsertPoint) : Option (Ring T) :=
  match ip with
  | .First => some { r with inner := t :: r.inner }
  | .Last => some { r with inner := r.inner ++ [t] }
  | .Index i => (vecInsert r.inner i t).map fun l => { r with inner := l }
  | .Focused => (vecInsert r.inner r.focused t).map fun l => { r with inner := l }
  | .AfterFocused =>
      let ix := r.focused + 1
      if ix > r.inner.length then
        some { r with inner := r.inner ++ [t] }
      else
        (vecInsert r.inner ix t).map fun l => { r with inner := l }

/-- `Ring::rotate`: circular shift by one, no-op on empty.
`Forward` is `rotate_right(1)`, `Backward` is `rotate_left(1)`. -/
def rotate {T : Type} (r : Ring T) (d : Direction) : Ring T :=
  match d, r.inner with
  | _, [] => r
  | .Forward, l => { r with inner := l.getLast?.toList ++ l.dropLast }
  | .Backward, x :: xs => { r with inner := xs ++ [x] }

/-- `Ring::would_wrap`: true when cycling forward at the last index or
backward at the first. On an empty ring `len - 1` underflows and wraps. -/
def would_wrap {T : Type} (r : Ring T) (d : Direction) : Bool :=
  (r.focused == 0 && d == .Backward)
    || (r.focused == usub r.inner.length 1 && d == .Forward)

/-- `Ring::next_index`: index after advancing focus one step in `d` with
wrap. On an empty ring `len - 1` underflows and wraps. -/
def next_index {T : Type} (r : Ring T) (d : Direction) : Nat :=
  let mx := usub r.inner.length 1
  match d with
  | .Forward => if r.focused = mx then 0 else r.focused + 1
  | .Backward => if r.focused = 0 then mx else r.focused - 1

/-- `Ring::cycle_focus`: set focus to `next_index` and return the new
focused element. -/
def cycle_focus {T : Type} (r : Ring T) (d : Direction) : Ring T × Option T :=
  let f := r.next_index d
  ({ r with focused := f }, r.inner[f]?)

/-- `Ring::clamp_focus`: decrement focus when `focused > 0` and
`focused >= len - 1` (the subtraction wraps when the ring is empty). -/
def clamp_focus {T : Type} (r : Ring T) : Ring T :=
  if 0 < r.focused ∧ usub r.inner.length 1 ≤ r.focused then
    { r with focused := r.focused - 1 }
  else r

/-- `Ring::remove(i)`: `VecDeque::remove` returns the element at `i` (or
`None` out of bounds, leaving the deque unchanged), then `clamp_focus`
runs. -/
def remove {T : Type} (r : Ring T) (i : Nat) : Option T × Ring T :=
  (r.inner[i]?, clamp_focus { r with inner := r.inner.eraseIdx i })

/-- `Ring::remove_focused`: `remove` at the focused index. -/
def remove_focused {T : Type} (r : Ring T) : Option T × Ring T :=
  r.remove r.focused

end Ring

/-- Screen geometry (data_types: `Region` = x, y, w, h as `u32`). -/
structure Region where
  x : Nat
  y : Nat
  w : Nat
  h : Nat
deriving DecidableEq, Repr

/-- Named state-transition triggers dispatched to user hooks (hook.rs
`HookTrigger`). -/
inductive HookTrigger where
  | Startup
  | NewClient (id : Nat)
  | RemoveClient (id : Nat)
  | ClientAddedToWorkspace (id ws : Nat)
  | ClientNameUpdated (id : Nat) (name : String) (root : Bool)
  | LayoutApplied (ws screen : Nat)
  | LayoutChange (ws : Nat)
  | WorkspaceChange (prev new : Nat)
  | WorkspacesUpdated (names : List String) (active : Nat)
  | ScreenChange (screen : Nat)
  | ScreenUpdated (rs : List Region)
  | RanderNotify
  | FocusChange (id : Nat)
  | EventHandled
deriving DecidableEq, Repr

/-- Requests consumed by the event loop (rpc.rs `Rpc`); only the variants
emitted by `detect_screens` are modelled, without their reply channels. -/
inductive Rpc where
  | ApplyLayout (ws : Option Nat)
  | RunHook (h : HookTrigger)
deriving DecidableEq, Repr

/-- Physical outputs plus the workspace currently displayed on each one
(state.rs `Screens`). -/
structure Screens where
  focused : Nat
  workspaces : List Nat
  inner : List Region
deriving DecidableEq, Repr

/-- Reconciliation when the server reports a new set of outputs
(actions/screen.rs `detect_screens`). The detected region list is passed
directly, standing for the `current_screens()` driver call. When regions
shrink, `workspaces` is truncated; when they grow, the source appends
`take(m - n)` of the unused workspace indices, where `m < n`, so the
count wraps (`usub m n`); debug builds panic at that subtraction. -/
def detect_screens (screens : Screens) (detected : List Region) (n_ws : Nat) :
    Screens × List Rpc :=
  if screens.inner ≠ detected then
    let n := detected.length
    let m := screens.workspaces.length
    let ws :=
      if n < m then
        screens.workspaces.take n
      else if n > m then
        screens.workspaces ++
          (((List.range n_ws).filter fun w => ¬ screens.workspaces.contains w).take (usub m n))
      else
        screens.workspaces
    ({ focused := screens.focused, workspaces := ws, inner := detected },
      [Rpc.ApplyLayout none, Rpc.RunHook (HookTrigger.ScreenUpdated detected)])
  else
    (screens, [])

/-- Modelled from the spec: layout configuration (`LayoutConf`), whose
source file is not part of the provided tree. The spec requires at least
the `allow_wrapping` flag; the remaining cosmetic flags are irrelevant to
the claims verified here. -/
structure LayoutConf where
  allow_wrapping : Bool
deriving DecidableEq, Repr

/-- Modelled from the spec: layout descriptor (`Layout`), whose source
file is not part of the provided tree. Per the spec it carries a symbol
and a `LayoutConf`; the arrange function, `max_main` and `main_ratio`
play no role in the claims verified here and are omitted. -/
structure Layout where
  symbol : String
  conf : LayoutConf
deriving DecidableEq, Repr

/-- Named set of clients with an ordered layout choice
(workspace/mod.rs `Workspace`). -/
structure Workspace where
  name : String
  layouts : Ring Layout
  clients : Ring Nat
deriving DecidableEq, Repr

namespace Workspace

/-- `Workspace::new`: panics (`none`) when the layout list is empty,
otherwise starts with the given layouts (focused 0) and no clients. -/
def new (name : String) (layouts : List Layout) : Option Workspace :=
  if layouts.isEmpty then none
  else some { name := name, layouts := Ring.fromList layouts, clients := Ring.fromList [] }

/-- `Workspace::focused_client`: the focused client id, if any. -/
def focused_client (w : Workspace) : Option Nat :=
  w.clients.focused_element

/-- `Workspace::client_ids`: the ordered client ids. -/
def client_ids (w : Workspace) : List Nat :=
  w.clients.inner

/-- `Workspace::layout_symbol`: symbol of the focused layout, accessed
through `focused_element_unchecked` (panics, `none`, when the focused
index is out of range). -/
def layout_symbol (w : Workspace) : Option String :=
  (w.layouts.inner[w.layouts.focused]?).map (·.symbol)

/-- `Workspace::current_layout`: the focused layout, accessed through
`focused_element_unchecked` (panics, `none`, when out of range). -/
def current_layout (w : Workspace) : Option Layout :=
  w.layouts.inner[w.layouts.focused]?

/-- `Workspace::cycle_client`: needs at least two clients and either a
wrapping layout or a non-wrapping move; returns the previous and new
focused ids. The outer `Option` is the panic from the unchecked access
to the current layout config; the inner one is the source's return
value. Note the source mutates `clients` via `cycle_focus` before the
final `?`, so that (unreachable on well-formed rings) early return keeps
the mutation. -/
def cycle_client (w : Workspace) (d : Direction) : Option (Option (Nat × Nat) × Workspace) :=
  if w.clients.inner.length < 2 then
    some (none, w)
  else
    match w.layouts.inner[w.layouts.focused]? with
    | none => none
    | some l =>
      if ¬ l.conf.allow_wrapping ∧ w.clients.would_wrap d then
        some (none, w)
      else
        match w.clients.focused_element with
        | none => some (none, w)
        | some prev =>
          let st := w.clients.cycle_focus d
          match st.2 with
          | none => some (none, { w with clients := st.1 })
          | some new => some (some (prev, new), { w with clients := st.1 })

end Workspace

/-- Ordered list of workspaces plus focused and previous indices
(state.rs `Workspaces`). -/
structure Workspaces where
  inner : List Workspace
  focused : Nat
  prev : Nat
deriving DecidableEq, Repr

/-- Modelled from the spec: the observable effects of the helper calls in
actions/workspace.rs, which are `todo!()` stubs in the provided tree
(`apply_layout`, `run_hook`, `update_focus`, `map_if_needed`,
`unmap_if_needed`, and the driver call `set_current_workspace`). Each is
recorded as an emitted event, per the contracts of spec sections 4.4 and
6.1. -/
inductive Event where
  | applyLayout (ws : Nat)
  | setCurrentWorkspace (ws : Nat)
  | updateFocus (id : Nat)
  | unmapIfNeeded (id : Nat)
  | mapIfNeeded (id : Nat)
  | runHook (t : HookTrigger)
deriving DecidableEq, Repr

/-- Loop body of `for i in 0..n` in `focus_workspace`: scan `ws` from
index `i` for `rem` more iterations looking for `target`;
`some (some i)` is a hit at `i`, `some none` is loop exhaustion, `none`
is an out-of-bounds index panic. -/
def loopFindAux (ws : List Nat) (target : Nat) : Nat → Nat → Option (Option Nat)
  | _, 0 => some none
  | i, rem + 1 =>
    match ws[i]? with
    | none => none
    | some x => if x = target then some (some i) else loopFindAux ws target (i + 1) rem

/-- Scan `ws` over indices `0..n` for `target` as the source loop does. -/
def loopFind (ws : List Nat) (target : Nat) (n : Nat) : Option (Option Nat) :=
  loopFindAux ws target 0 n

/-- Focus-change bookkeeping shared by both branches of
`focus_workspace`: focused-client lookup, focused index update and the
`WorkspaceChange` hook. -/
def focusTail (active index : Nat) (wt : Workspace) : List Event :=
  (match wt.focused_client with
   | some id => [Event.updateFocus id]
   | none => []) ++ [Event.runHook (HookTrigger.WorkspaceChange active index)]

/-- Central reconciliation (actions/workspace.rs `focus_workspace`).
Returns the updated screens and workspaces with the trace of emitted
effects, or `none` when an index panics. The loop over `0..s.len()`
(`s.len()` is the region count) looks for a screen already displaying
`index`; on a hit the two screens swap workspaces, otherwise the active
workspace's clients are unmapped and the target's mapped. -/
def focus_workspace (index : Nat) (s : Screens) (w : Workspaces) :
    Option (Screens × Workspaces × List Event) :=
  if w.focused = index then some (s, w, [])
  else
    match s.workspaces[s.focused]? with
    | none => none
    | some active =>
      let w1 : Workspaces := { w with prev := active }
      match loopFind s.workspaces index s.inner.length with
      | none => none
      | some (some i) =>
        let s' : Screens :=
          { s with workspaces := (s.workspaces.set i active).set s.focused index }
        match w1.inner[index]? with
        | none => none
        | some wt =>
          some (s', { w1 with focused := index },
            [Event.applyLayout active, Event.applyLayout index,
              Event.setCurrentWorkspace index] ++ focusTail active index wt)
      | some none =>
        match w1.inner[active]? with
        | none => none
        | some wa =>
          match w1.inner[index]? with
          | none => none
          | some wt =>
            some ({ s with workspaces := s.workspaces.set s.focused index },
              { w1 with focused := index },
              (wa.client_ids.map Event.unmapIfNeeded)
                ++ (wt.client_ids.map Event.mapIfNeeded)
                ++ [Event.applyLayout index, Event.setCurrentWorkspace index]
                ++ focusTail active index wt)

/-- A user hook, viewed through its behaviour at each trigger: the
trait's per-trigger methods (hook.rs `Hook`) all return `Result<()>`. -/
def Hook : Type := HookTrigger → Except Error Unit

/-- Semantics of `hooks.iter_mut().try_for_each(...)` in
`HookRunner::run` (hook.rs): call each hook in order, stopping at the
first error. Returns the overall result together with how many hooks
were invoked. -/
def tryForEachCount (t : HookTrigger) : List Hook → Except Error Unit × Nat
  | [] => (Except.ok (), 0)
  | h :: hs =>
    match h t with
    | Except.error e => (Except.error e, 1)
    | Except.ok () =>
      let r := tryForEachCount t hs
      (r.1, r.2 + 1)

/-- `HookRunner::run` for a single trigger: dispatch the trigger to every
registered hook via `try_for_each`. -/
def runHooks (hooks : List Hook) (t : HookTrigger) : Except Error Unit × Nat :=
  tryForEachCount t hooks

/-- Invariant of `Screens` from the spec: one displayed workspace per
region, and no workspace displayed on two screens. -/
def ScreensInv (s : Screens) : Prop :=
  s.workspaces.length = s.inner.length ∧ s.workspaces.Nodup

/-- C1: the claim states that every sequence of `detect_screens` and
`focus_workspace` operations preserves the `Screens` invariant
(`workspaces.len == screens.len`, all entries distinct). The code
violates it: from empty screens (which satisfy the invariant), one
`detect_screens` reporting two regions with ten workspaces appends every
unused workspace index — the growth path takes `m - n` entries with
`m < n`, a wrapped underflow — leaving ten displayed workspaces for two
regions. -/
theorem C1_detect_screens_breaks_invariant :
    ScreensInv ⟨0, [], []⟩ ∧
    ¬ ScreensInv
      (detect_screens ⟨0, [], []⟩ [⟨0, 0, 1366, 768⟩, ⟨1366, 0, 1366, 768⟩] 10).1 := by
  unfold ScreensInv
  decide

/-- C2: the claim states that growing `detect_screens` fills each new
slot with the first unused workspace index, so that from empty screens
with two reported regions and ten workspaces the result is
`workspaces == [0, 1]`. The code instead takes `m - n = 0 - 2` entries:
the subtraction wraps (debug builds panic), so all ten unused indices
are appended. The emitted RPCs do match the claim. -/
theorem C2_detect_screens_initial_eval :
    detect_screens ⟨0, [], []⟩ [⟨0, 0, 1366, 768⟩, ⟨1366, 0, 1366, 768⟩] 10
      = (⟨0, [0, 1, 2, 3, 4, 5, 6, 7, 8, 9], [⟨0, 0, 1366, 768⟩, ⟨1366, 0, 1366, 768⟩]⟩,
          [Rpc.ApplyLayout none,
            Rpc.RunHook (HookTrigger.ScreenUpdated [⟨0, 0, 1366, 768⟩, ⟨1366, 0, 1366, 768⟩])])
      ∧ (detect_screens ⟨0, [], []⟩ [⟨0, 0, 1366, 768⟩, ⟨1366, 0, 1366, 768⟩] 10).1.workspaces
          ≠ [0, 1] := by
  decide

/-- C5 counterexample: the claim states that after `remove(i)` the
focused index is unchanged unless it points past the end of the
shortened ring. Removing index 2 of `[1, 2, 3]` with focus 1 leaves a
two-element ring in which index 1 is still valid, yet `clamp_focus`
(which fires whenever `focused >= len - 1`) moves focus to 0. -/
theorem C5_remove_moves_valid_focus :
    ((⟨[1, 2, 3], 1⟩ : Ring Nat).remove 2).2.inner = [1, 2] ∧
    ((⟨[1, 2, 3], 1⟩ : Ring Nat).remove 2).2.focused ≠ 1 := by
  decide

/-- C6: the claim states every Ring operation is total and an empty ring
keeps `focused == 0`. `cycle_focus` on an empty ring computes
`len - 1 = 0 - 1`: debug builds panic on the underflow, and under
release wrap-around semantics the focused index becomes 1 on the empty
ring, violating the convention. -/
theorem C6_cycle_focus_empty_breaks_convention :
    ((⟨[], 0⟩ : Ring Nat).cycle_focus .Forward).1.inner = [] ∧
    ((⟨[], 0⟩ : Ring Nat).cycle_focus .Forward).1.focused = 1 := by
  decide

/-- C7: the claim (and the `InsertPoint::Index` doc comment in the
source) states that an out-of-range index is clamped and the insert
succeeds. The implementation forwards to `VecDeque::insert`, which
panics when the index exceeds the length: inserting at index 1 of an
empty ring fails instead of placing the element at position 0. -/
theorem C7_insert_index_out_of_bounds_panics :
    (⟨[], 0⟩ : Ring Nat).insert 42 (.Index 1) = none := by
  decide

/-- C4 counterexample: the claim states that when a hook returns an
error the remaining hooks for the trigger still run. With two hooks of
which the first fails, `try_for_each` short-circuits: only one hook is
invoked although two are registered. -/
theorem C4_second_hook_not_invoked :
    (runHooks [fun _ => Except.error (Error.Raw "e1"), fun _ => Except.ok ()]
        HookTrigger.Startup).2 = 1 ∧
    ([fun _ => Except.error (Error.Raw "e1"), fun _ => Except.ok ()] : List Hook).length = 2 :=
  ⟨rfl, rfl⟩

/-- C4 (amended): hook dispatch for a trigger stops at the first hook
that returns an error: the hooks before it and the failing hook itself
are invoked, later hooks are not, and that first error is the one
surfaced to the error handler. -/
theorem C4_first_error_stops_dispatch (hooks : List Hook) (t : HookTrigger)
    (i : Nat) (h : Hook) (e : Error)
    (hh : hooks[i]? = some h) (he : h t = Except.error e)
    (hok : ∀ j hj, j < i → hooks[j]? = some hj → hj t = Except.ok ()) :
    runHooks hooks t = (Except.error e, i + 1) := by
  induction hooks generalizing i with
  | nil => simp at hh
  | cons x xs ih =>
    cases i with
    | zero =>
      simp only [List.getElem?_cons_zero, Option.some.injEq] at hh
      subst hh
      simp [runHooks, tryForEachCount, he]
    | succ n =>
      have hx : x t = Except.ok () := hok 0 x (Nat.succ_pos n) (by simp)
      have hrec := ih n (by simpa using hh)
        (fun j hj hji hget => hok (j + 1) hj (by omega) (by simpa using hget))
      simp only [runHooks, tryForEachCount, hx] at hrec ⊢
      rw [hrec]

/-- Witness for C4_first_error_stops_dispatch at a concrete two-hook
list whose first hook fails. -/
theorem C4_first_error_stops_dispatch_witness :
    runHooks [fun _ => Except.error (Error.Raw "boom"), fun _ => Except.ok ()]
      HookTrigger.Startup = (Except.error (Error.Raw "boom"), 1) :=
  C4_first_error_stops_dispatch _ HookTrigger.Startup 0 _ _ rfl rfl
    (fun j hj hji _ => absurd hji (by omega))

/-- Wrapped `usize` subtraction agrees with exact subtraction when no
underflow occurs. -/
theorem usub_one_eq (n : Nat) (h1 : 1 ≤ n) (h2 : n ≤ U64) : usub n 1 = n - 1 := by
  have hpow : U64 = 18446744073709551616 := by norm_num [U64]
  unfold usub
  rw [hpow] at h2 ⊢
  omega

/-- On a well-formed ring, advancing the focused index stays in range. -/
theorem next_index_lt (T : Type) (r : Ring T) (d : Direction)
    (hf : r.focused < r.inner.length) (hb : r.inner.length ≤ U64) :
    r.next_index d < r.inner.length := by
  have hu : usub r.inner.length 1 = r.inner.length - 1 :=
    usub_one_eq _ (by omega) hb
  cases d with
  | Forward =>
    show (if r.focused = usub r.inner.length 1 then 0 else r.focused + 1) < _
    rw [hu]
    split <;> omega
  | Backward =>
    show (if r.focused = 0 then usub r.inner.length 1 else r.focused - 1) < _
    rw [hu]
    split <;> omega

/-- A successful `VecDeque::insert` places the element at the requested
index. -/
theorem vecInsert_getElem (T : Type) :
    ∀ (l : List T) (i : Nat) (t : T) (l' : List T),
      vecInsert l i t = some l' → l'[i]? = some t := by
  intro l
  induction l with
  | nil =>
    intro i t l' h
    cases i with
    | zero =>
      simp only [vecInsert, Option.some.injEq] at h
      subst h
      rfl
    | succ n => simp [vecInsert] at h
  | cons x xs ih =>
    intro i t l' h
    cases i with
    | zero =>
      simp only [vecInsert, Option.some.injEq] at h
      subst h
      rfl
    | succ n =>
      simp only [vecInsert, Option.map_eq_some'] at h
      obtain ⟨l'', h1, rfl⟩ := h
      simpa using ih n t l'' h1

/-- C5 (amended): after `remove(i)` the element at `i` is deleted and the
focused index is decremented by one exactly when it is positive and at
least `new_len - 1` — so also when it still names a valid index equal to
the new last position — and is otherwise unchanged; the result focus is
always a valid index on a non-empty ring, and `remove_focused` is
`remove` at the focused index. -/
theorem C5_remove_clamp_amended (T : Type) (r : Ring T) (i : Nat)
    (hf : r.focused < r.inner.length) (hi : i < r.inner.length)
    (hb : r.inner.length ≤ U64) :
    (r.remove i).2.inner = r.inner.eraseIdx i ∧
    (r.remove i).2.focused =
      (if 0 < r.focused ∧ r.inner.length - 2 ≤ r.focused then r.focused - 1
        else r.focused) ∧
    ((r.remove i).2.inner ≠ [] → (r.remove i).2.focused < (r.remove i).2.inner.length) ∧
    r.remove_focused = r.remove r.focused := by
  have hlen : (r.inner.eraseIdx i).length = r.inner.length - 1 := by
    rw [List.length_eraseIdx, if_pos hi]
  have hinner : (r.remove i).2.inner = r.inner.eraseIdx i := by
    show (Ring.clamp_focus { r with inner := r.inner.eraseIdx i }).inner = _
    unfold Ring.clamp_focus
    split <;> rfl
  have hfoc : (r.remove i).2.focused =
      (if 0 < r.focused ∧ r.inner.length - 2 ≤ r.focused then r.focused - 1
        else r.focused) := by
    show (Ring.clamp_focus { r with inner := r.inner.eraseIdx i }).focused = _
    unfold Ring.clamp_focus
    rcases Nat.lt_or_ge 1 r.inner.length with h2 | h2
    · have hu : usub (r.inner.eraseIdx i).length 1 = r.inner.length - 2 := by
        rw [hlen, usub_one_eq _ (by omega) (by omega)]
        omega
      show (if 0 < r.focused ∧ usub (r.inner.eraseIdx i).length 1 ≤ r.focused then
          ({ r with inner := r.inner.eraseIdx i, focused := r.focused - 1 } : Ring T)
        else { r with inner := r.inner.eraseIdx i }).focused = _
      rw [hu]
      split <;> rfl
    · have hf0 : r.focused = 0 := by omega
      show (if 0 < r.focused ∧ usub (r.inner.eraseIdx i).length 1 ≤ r.focused then
          ({ r with inner := r.inner.eraseIdx i, focused := r.focused - 1 } : Ring T)
        else { r with inner := r.inner.eraseIdx i }).focused = _
      rw [if_neg (by simp [hf0]), if_neg (by omega)]
  refine ⟨hinner, hfoc, ?_, rfl⟩
  intro hne
  have hpos : 0 < (r.remove i).2.inner.length := List.length_pos.mpr hne
  have hlen2 : (r.remove i).2.inner.length = r.inner.length - 1 := by rw [hinner, hlen]
  rw [hfoc]
  split <;> omega

/-- Witness for C5_remove_clamp_amended on the source's own test ring
`[1, 2, 3, 4]` with focus 3, removing the focused last element. -/
theorem C5_remove_clamp_amended_witness :
    ((⟨[1, 2, 3, 4], 3⟩ : Ring Nat).remove 3).2.inner
        = (⟨[1, 2, 3, 4], 3⟩ : Ring Nat).inner.eraseIdx 3 ∧
    ((⟨[1, 2, 3, 4], 3⟩ : Ring Nat).remove 3).2.focused
        = (if 0 < (⟨[1, 2, 3, 4], 3⟩ : Ring Nat).focused ∧
              (⟨[1, 2, 3, 4], 3⟩ : Ring Nat).inner.length - 2
                ≤ (⟨[1, 2, 3, 4], 3⟩ : Ring Nat).focused then
            (⟨[1, 2, 3, 4], 3⟩ : Ring Nat).focused - 1
          else (⟨[1, 2, 3, 4], 3⟩ : Ring Nat).focused) ∧
    (((⟨[1, 2, 3, 4], 3⟩ : Ring Nat).remove 3).2.inner ≠ [] →
      ((⟨[1, 2, 3, 4], 3⟩ : Ring Nat).remove 3).2.focused
        < ((⟨[1, 2, 3, 4], 3⟩ : Ring Nat).remove 3).2.inner.length) ∧
    (⟨[1, 2, 3, 4], 3⟩ : Ring Nat).remove_focused
      = (⟨[1, 2, 3, 4], 3⟩ : Ring Nat).remove (⟨[1, 2, 3, 4], 3⟩ : Ring Nat).focused :=
  C5_remove_clamp_amended Nat ⟨[1, 2, 3, 4], 3⟩ 3 (by decide) (by decide) (by decide)

/-- A successful `VecDeque::insert` at index `i` shifts every element at
a position `j ≥ i` up by one. -/
theorem vecInsert_getElem_shift (T : Type) :
    ∀ (l : List T) (i : Nat) (t : T) (l' : List T) (j : Nat),
      i ≤ j → vecInsert l i t = some l' → l'[j + 1]? = l[j]? := by
  intro l
  induction l with
  | nil =>
    intro i t l' j hij h
    cases i with
    | zero =>
      simp only [vecInsert, Option.some.injEq] at h
      subst h
      simp
    | succ n => simp [vecInsert] at h
  | cons x xs ih =>
    intro i t l' j hij h
    cases i with
    | zero =>
      simp only [vecInsert, Option.some.injEq] at h
      subst h
      simp
    | succ n =>
      simp only [vecInsert, Option.map_eq_some'] at h
      obtain ⟨l'', h1, rfl⟩ := h
      cases j with
      | zero => omega
      | succ m =>
        simp only [List.getElem?_cons_succ]
        exact ih n t l'' m (by omega) h1

/-- C9: `Ring::insert` never modifies the `focused` index field;
consequently an insert at `Focused` makes the inserted element the
focused one, and an insert at `First` — or more generally a successful
insert at any `Index i` with `i` at or before the focused position —
moves the previously focused element to position `focused + 1`, so
focus lands on a different position's element. -/
theorem C9_insert_keeps_focus_field (T : Type) (r : Ring T) (t : T) :
    (∀ ip r', r.insert t ip = some r' → r'.focused = r.focused) ∧
    (∀ r', r.insert t .Focused = some r' → r'.focused_element = some t) ∧
    (r.inner ≠ [] → ∃ r', r.insert t .First = some r' ∧
      r'.inner[r.focused + 1]? = r.inner[r.focused]?) ∧
    (∀ i r', i ≤ r.focused → r.insert t (.Index i) = some r' →
      r'.inner[r.focused + 1]? = r.inner[r.focused]?) := by
  have hfocus : ∀ ip r', r.insert t ip = some r' → r'.focused = r.focused := by
    intro ip r' h
    cases ip with
    | Index i =>
      simp only [Ring.insert, Option.map_eq_some'] at h
      obtain ⟨l, _, rfl⟩ := h
      rfl
    | Focused =>
      simp only [Ring.insert, Option.map_eq_some'] at h
      obtain ⟨l, _, rfl⟩ := h
      rfl
    | AfterFocused =>
      simp only [Ring.insert] at h
      split at h
      · cases h
        rfl
      · simp only [Option.map_eq_some'] at h
        obtain ⟨l, _, rfl⟩ := h
        rfl
    | First =>
      cases h
      rfl
    | Last =>
      cases h
      rfl
  refine ⟨hfocus, ?_, ?_, ?_⟩
  · intro r' h
    have hf := hfocus .Focused r' h
    simp only [Ring.insert, Option.map_eq_some'] at h
    obtain ⟨l, hl, rfl⟩ := h
    show l[r.focused]? = some t
    exact vecInsert_getElem T r.inner r.focused t l hl
  · intro _
    exact ⟨{ r with inner := t :: r.inner }, rfl, by simp⟩
  · intro i r' hile h
    simp only [Ring.insert, Option.map_eq_some'] at h
    obtain ⟨l, hl, rfl⟩ := h
    show l[r.focused + 1]? = r.inner[r.focused]?
    exact vecInsert_getElem_shift T r.inner i t l r.focused hile hl

/-- Witness for C9_insert_keeps_focus_field on the ring `[10, 20]` with
focus 1, inserting 99 at `Last`, `Focused`, `First` and `Index 0`. -/
theorem C9_insert_keeps_focus_field_witness :
    (⟨[10, 20, 99], 1⟩ : Ring Nat).focused = (⟨[10, 20], 1⟩ : Ring Nat).focused ∧
    (⟨[10, 99, 20], 1⟩ : Ring Nat).focused_element = some 99 ∧
    (∃ r', (⟨[10, 20], 1⟩ : Ring Nat).insert 99 .First = some r' ∧
      r'.inner[(⟨[10, 20], 1⟩ : Ring Nat).focused + 1]?
        = (⟨[10, 20], 1⟩ : Ring Nat).inner[(⟨[10, 20], 1⟩ : Ring Nat).focused]?) ∧
    (⟨[99, 10, 20], 1⟩ : Ring Nat).inner[(⟨[10, 20], 1⟩ : Ring Nat).focused + 1]?
      = (⟨[10, 20], 1⟩ : Ring Nat).inner[(⟨[10, 20], 1⟩ : Ring Nat).focused]? :=
  ⟨(C9_insert_keeps_focus_field Nat ⟨[10, 20], 1⟩ 99).1 .Last ⟨[10, 20, 99], 1⟩ rfl,
    (C9_insert_keeps_focus_field Nat ⟨[10, 20], 1⟩ 99).2.1 ⟨[10, 99, 20], 1⟩ rfl,
    (C9_insert_keeps_focus_field Nat ⟨[10, 20], 1⟩ 99).2.2.1 (by simp),
    (C9_insert_keeps_focus_field Nat ⟨[10, 20], 1⟩ 99).2.2.2 0 ⟨[99, 10, 20], 1⟩
      (Nat.zero_le 1) rfl⟩

/-- C8: on a well-formed workspace, `cycle_client(dir)` returns the pair
of previously and newly focused client ids exactly when there are at
least two clients and either the current layout allows wrapping or the
move would not wrap; otherwise it returns `None` with the workspace
unchanged. -/
theorem C8_cycle_client_iff (w : Workspace) (d : Direction) (l : Layout)
    (hl : w.layouts.inner[w.layouts.focused]? = some l)
    (hb : w.clients.inner.length ≤ U64)
    (hwf : w.clients.focused < w.clients.inner.length ∨ w.clients.inner = []) :
    (2 ≤ w.clients.inner.length ∧
        (l.conf.allow_wrapping = true ∨ w.clients.would_wrap d = false) →
      ∃ p n, w.clients.inner[w.clients.focused]? = some p ∧
        w.clients.inner[w.clients.next_index d]? = some n ∧
        w.cycle_client d = some (some (p, n),
          { w with clients := { w.clients with focused := w.clients.next_index d } })) ∧
    (¬ (2 ≤ w.clients.inner.length ∧
          (l.conf.allow_wrapping = true ∨ w.clients.would_wrap d = false)) →
      w.cycle_client d = some (none, w)) := by
  constructor
  · rintro ⟨h2, hw⟩
    have hf : w.clients.focused < w.clients.inner.length := by
      rcases hwf with h | h
      · exact h
      · rw [h] at h2
        simp at h2
    have hn : w.clients.next_index d < w.clients.inner.length :=
      next_index_lt Nat w.clients d hf hb
    refine ⟨w.clients.inner[w.clients.focused], w.clients.inner[w.clients.next_index d],
      List.getElem?_eq_getElem hf, List.getElem?_eq_getElem hn, ?_⟩
    have hcond : ¬ (¬ l.conf.allow_wrapping = true ∧ w.clients.would_wrap d = true) := by
      rcases hw with h | h <;> simp [h]
    simp only [Workspace.cycle_client, hl]
    rw [if_neg (Nat.not_lt.mpr h2), if_neg hcond]
    simp only [Ring.focused_element, Ring.cycle_focus, List.getElem?_eq_getElem hf,
      List.getElem?_eq_getElem hn]
  · intro hnot
    by_cases h2 : 2 ≤ w.clients.inner.length
    · have hB : ¬ (l.conf.allow_wrapping = true ∨ w.clients.would_wrap d = false) :=
        fun hB => hnot ⟨h2, hB⟩
      push_neg at hB
      simp only [Workspace.cycle_client, hl]
      rw [if_neg (Nat.not_lt.mpr h2),
        if_pos ⟨by simp [hB.1], by simp [hB.2]⟩]
    · simp only [Workspace.cycle_client]
      rw [if_pos (Nat.not_le.mp h2)]

/-- Witness for C8_cycle_client_iff on a three-client workspace with a
wrapping layout, cycling forward from focus 0. -/
theorem C8_cycle_client_iff_witness :
    ∃ p n,
      (⟨"ws", ⟨[⟨"t", ⟨true⟩⟩], 0⟩, ⟨[5, 6, 7], 0⟩⟩ : Workspace).clients.inner[
          (⟨"ws", ⟨[⟨"t", ⟨true⟩⟩], 0⟩, ⟨[5, 6, 7], 0⟩⟩ : Workspace).clients.focused]?
        = some p ∧
      (⟨"ws", ⟨[⟨"t", ⟨true⟩⟩], 0⟩, ⟨[5, 6, 7], 0⟩⟩ : Workspace).clients.inner[
          (⟨"ws", ⟨[⟨"t", ⟨true⟩⟩], 0⟩, ⟨[5, 6, 7], 0⟩⟩ : Workspace).clients.next_index
            .Forward]?
        = some n ∧
      (⟨"ws", ⟨[⟨"t", ⟨true⟩⟩], 0⟩, ⟨[5, 6, 7], 0⟩⟩ : Workspace).cycle_client .Forward
        = some (some (p, n),
          { (⟨"ws", ⟨[⟨"t", ⟨true⟩⟩], 0⟩, ⟨[5, 6, 7], 0⟩⟩ : Workspace) with
            clients := { (⟨"ws", ⟨[⟨"t", ⟨true⟩⟩], 0⟩, ⟨[5, 6, 7], 0⟩⟩ :
                Workspace).clients with
              focused := (⟨"ws", ⟨[⟨"t", ⟨true⟩⟩], 0⟩, ⟨[5, 6, 7], 0⟩⟩ :
                Workspace).clients.next_index .Forward } }) :=
  (C8_cycle_client_iff ⟨"ws", ⟨[⟨"t", ⟨true⟩⟩], 0⟩, ⟨[5, 6, 7], 0⟩⟩ .Forward
      ⟨"t", ⟨true⟩⟩ rfl (by decide) (Or.inl (by decide))).1 ⟨by decide, Or.inl rfl⟩

/-- The screen-scan loop of `focus_workspace` reaches the first index
holding the target workspace. -/
theorem loopFindAux_finds (ws : List Nat) (t : Nat) :
    ∀ (rem i i0 : Nat), i ≤ i0 → i0 < i + rem → ws[i0]? = some t →
      (∀ j, i ≤ j → j < i0 → ws[j]? ≠ some t) →
      loopFindAux ws t i rem = some (some i0) := by
  intro rem
  induction rem with
  | zero =>
    intro i i0 h1 h2 _ _
    omega
  | succ n ih =>
    intro i i0 h1 h2 h3 h4
    have hi0 : i0 < ws.length := (List.getElem?_eq_some.mp h3).1
    have hil : i < ws.length := by omega
    rw [loopFindAux, List.getElem?_eq_getElem hil]
    by_cases he : i = i0
    · subst he
      have hv : ws[i] = t := by
        rw [List.getElem?_eq_getElem hil] at h3
        exact Option.some.inj h3
      simp [hv]
    · have hne : ¬ ws[i] = t := fun hc =>
        h4 i le_rfl (by omega) (by rw [List.getElem?_eq_getElem hil, hc])
      simp only [hne, if_false]
      exact ih (i + 1) i0 (by omega) (by omega) h3 fun j hj1 hj2 => h4 j (by omega) hj2

/-- C3: when the target workspace differs from the focused one and is
displayed on another screen `i`, `focus_workspace` swaps the two
screens' workspace assignments, records the previously active workspace
in `prev`, focuses the target, and emits the `WorkspaceChange` hook with
the previous and new workspace indices. Helper effects are
spec-modelled events (`Event`), as the source's helpers are `todo!()`
stubs. -/
theorem C3_focus_workspace_swap (index : Nat) (s : Screens) (w : Workspaces)
    (active i : Nat) (wt : Workspace)
    (hne : w.focused ≠ index)
    (ha : s.workspaces[s.focused]? = some active)
    (hlen : s.inner.length = s.workspaces.length)
    (hi : s.workspaces[i]? = some index)
    (hfirst : ∀ j, j < i → s.workspaces[j]? ≠ some index)
    (hisf : i ≠ s.focused)
    (hwt : w.inner[index]? = some wt) :
    ∃ s' w' evs, focus_workspace index s w = some (s', w', evs) ∧
      s'.workspaces[i]? = some active ∧
      s'.workspaces[s.focused]? = some index ∧
      s'.inner = s.inner ∧ s'.focused = s.focused ∧
      w'.prev = active ∧ w'.focused = index ∧ w'.inner = w.inner ∧
      Event.runHook (HookTrigger.WorkspaceChange active index) ∈ evs := by
  have hi_lt : i < s.workspaces.length := (List.getElem?_eq_some.mp hi).1
  have hf_lt : s.focused < s.workspaces.length := (List.getElem?_eq_some.mp ha).1
  have hloop : loopFind s.workspaces index s.inner.length = some (some i) := by
    unfold loopFind
    exact loopFindAux_finds s.workspaces index s.inner.length 0 i (Nat.zero_le i)
      (by omega) hi fun j _ hj2 => hfirst j hj2
  refine ⟨{ s with workspaces := (s.workspaces.set i active).set s.focused index },
    { w with prev := active, focused := index },
    [Event.applyLayout active, Event.applyLayout index, Event.setCurrentWorkspace index]
      ++ focusTail active index wt, ?_, ?_, ?_, rfl, rfl, rfl, rfl, rfl, ?_⟩
  · unfold focus_workspace
    rw [if_neg hne, ha]
    simp only [hloop, hwt]
  · rw [List.getElem?_set_ne (Ne.symm hisf),
      List.getElem?_set_self (by simpa using hi_lt)]
  · rw [List.getElem?_set_self (by simpa using hf_lt)]
  · simp [focusTail]

/-- Witness for C3_focus_workspace_swap on scenario S3: two screens
displaying workspaces 0 and 1, focused screen 0, focusing workspace 1. -/
theorem C3_focus_workspace_swap_witness :
    ∃ s' w' evs,
      focus_workspace 1 ⟨0, [0, 1], [⟨0, 0, 1366, 768⟩, ⟨1366, 0, 1366, 768⟩]⟩
        ⟨[⟨"a", ⟨[⟨"t", ⟨true⟩⟩], 0⟩, ⟨[], 0⟩⟩, ⟨"b", ⟨[⟨"t", ⟨true⟩⟩], 0⟩, ⟨[], 0⟩⟩], 0, 0⟩
        = some (s', w', evs) ∧
      s'.workspaces[1]? = some 0 ∧
      s'.workspaces[(⟨0, [0, 1], [⟨0, 0, 1366, 768⟩, ⟨1366, 0, 1366, 768⟩]⟩ :
          Screens).focused]? = some 1 ∧
      s'.inner = (⟨0, [0, 1], [⟨0, 0, 1366, 768⟩, ⟨1366, 0, 1366, 768⟩]⟩ : Screens).inner ∧
      s'.focused = (⟨0, [0, 1], [⟨0, 0, 1366, 768⟩, ⟨1366, 0, 1366, 768⟩]⟩ : Screens).focused ∧
      w'.prev = 0 ∧ w'.focused = 1 ∧
      w'.inner = (⟨[⟨"a", ⟨[⟨"t", ⟨true⟩⟩], 0⟩, ⟨[], 0⟩⟩,
        ⟨"b", ⟨[⟨"t", ⟨true⟩⟩], 0⟩, ⟨[], 0⟩⟩], 0, 0⟩ : Workspaces).inner ∧
      Event.runHook (HookTrigger.WorkspaceChange 0 1) ∈ evs :=
  C3_focus_workspace_swap 1 ⟨0, [0, 1], [⟨0, 0, 1366, 768⟩, ⟨1366, 0, 1366, 768⟩]⟩
    ⟨[⟨"a", ⟨[⟨"t", ⟨true⟩⟩], 0⟩, ⟨[], 0⟩⟩, ⟨"b", ⟨[⟨"t", ⟨true⟩⟩], 0⟩, ⟨[], 0⟩⟩], 0, 0⟩
    0 1 ⟨"b", ⟨[⟨"t", ⟨true⟩⟩], 0⟩, ⟨[], 0⟩⟩ (by decide) rfl rfl rfl
    (fun j hj => by
      have hj0 : j = 0 := by omega
      subst hj0
      decide)
    (by decide) rfl

/-- C10: constructing a `Workspace` with an empty layout list panics
(returns no value) rather than yielding an error value, and any
successfully constructed workspace starts with a non-empty layout ring
on which `layout_symbol` and `current_layout` succeed. -/
theorem C10_workspace_new_layouts (name : String) :
    Workspace.new name [] = none ∧
    ∀ l ls, ∃ w, Workspace.new name (l :: ls) = some w ∧
      w.layout_symbol = some l.symbol ∧ w.current_layout = some l ∧
      w.layouts.inner ≠ [] := by
  refine ⟨rfl, fun l ls => ⟨_, rfl, ?_, ?_, ?_⟩⟩ <;>
    simp [Workspace.layout_symbol, Workspace.current_layout, Ring.fromList]

/-- Witness for C10_workspace_new_layouts at the concrete name `main`
and a single concrete layout. -/
theorem C10_workspace_new_layouts_witness :
    Workspace.new "main" [] = none ∧
    ∀ l ls, ∃ w, Workspace.new "main" (l :: ls) = some w ∧
      w.layout_symbol = some l.symbol ∧ w.current_layout = some l ∧
      w.layouts.inner ≠ [] :=
  C10_workspace_new_layouts "main"

end Penrose
